import Mathlib

/-!
Shallow embedding of the `baseline_generator` package
(`src/baseline_generator/{schema,parser,engine}.py`) of the
DL-Construction-Recommendation repository, together with proofs settling the
frozen claims about it.

Modelling conventions:
* Python runtime values appearing in rules, building specifications and
  baseline documents are modelled by the inductive type `BG.Value`
  (`None`, `int`, `float`, `str`, `list`, `dict`).  Python `float`s are
  modelled as rationals: no claim depends on IEEE rounding, `inf` or `nan`.
* Python dicts are modelled as association lists in insertion order with
  unique keys; `d[k] = v` keeps the position of an existing key and appends a
  fresh one, exactly as Python dicts do (`BG.setKey`).
* The `str`-valued enums `ComparisonOperator` and `LogicalOperator` are
  modelled by their underlying strings (a Python `str` enum member compares
  equal to its value string, and the code dispatches by `==`), with the
  enumerated literal lists kept as `BG.compOpLits` / `BG.logicalOpLits`.
* The regular expressions in `parser.py` are embedded as dedicated search
  functions over `List Char` covering exactly the constructs those patterns
  use (literals, `\s*`/`\s+`, optional characters, word boundaries,
  character classes); text is restricted to the ASCII fragment the patterns
  target (`str.lower`, `\w`, `\s` are modelled on ASCII).
-/

namespace BG

/-- Model of a Python runtime value (the fragment used by the package):
`None`, `int`, `float` (as `ℚ`), `str`, `list`, and `dict` with string keys
as an insertion-ordered association list. -/
inductive Value where
  | none : Value
  | int (n : Int) : Value
  | float (q : ℚ) : Value
  | str (s : String) : Value
  | list (l : List Value) : Value
  | dict (d : List (String × Value)) : Value
deriving Repr

mutual

/-- Decidable equality for `Value` (structural; the nested `list`/`dict`
cases recurse through the element lists). -/
def Value.deq : (a b : Value) → Decidable (a = b)
  | .none, .none => .isTrue rfl
  | .int a, .int b =>
    if h : a = b then .isTrue (by rw [h]) else .isFalse (by simp [h])
  | .float a, .float b =>
    if h : a = b then .isTrue (by rw [h]) else .isFalse (by simp [h])
  | .str a, .str b =>
    if h : a = b then .isTrue (by rw [h]) else .isFalse (by simp [h])
  | .list a, .list b =>
    match deqList a b with
    | .isTrue h => .isTrue (by rw [h])
    | .isFalse h => .isFalse (by simp [h])
  | .dict a, .dict b =>
    match deqDict a b with
    | .isTrue h => .isTrue (by rw [h])
    | .isFalse h => .isFalse (by simp [h])
  | .none, .int _ => .isFalse (by simp)
  | .none, .float _ => .isFalse (by simp)
  | .none, .str _ => .isFalse (by simp)
  | .none, .list _ => .isFalse (by simp)
  | .none, .dict _ => .isFalse (by simp)
  | .int _, .none => .isFalse (by simp)
  | .int _, .float _ => .isFalse (by simp)
  | .int _, .str _ => .isFalse (by simp)
  | .int _, .list _ => .isFalse (by simp)
  | .int _, .dict _ => .isFalse (by simp)
  | .float _, .none => .isFalse (by simp)
  | .float _, .int _ => .isFalse (by simp)
  | .float _, .str _ => .isFalse (by simp)
  | .float _, .list _ => .isFalse (by simp)
  | .float _, .dict _ => .isFalse (by simp)
  | .str _, .none => .isFalse (by simp)
  | .str _, .int _ => .isFalse (by simp)
  | .str _, .float _ => .isFalse (by simp)
  | .str _, .list _ => .isFalse (by simp)
  | .str _, .dict _ => .isFalse (by simp)
  | .list _, .none => .isFalse (by simp)
  | .list _, .int _ => .isFalse (by simp)
  | .list _, .float _ => .isFalse (by simp)
  | .list _, .str _ => .isFalse (by simp)
  | .list _, .dict _ => .isFalse (by simp)
  | .dict _, .none => .isFalse (by simp)
  | .dict _, .int _ => .isFalse (by simp)
  | .dict _, .float _ => .isFalse (by simp)
  | .dict _, .str _ => .isFalse (by simp)
  | .dict _, .list _ => .isFalse (by simp)

/-- Decidable equality for lists of `Value`. -/
def Value.deqList : (a b : List Value) → Decidable (a = b)
  | [], [] => .isTrue rfl
  | [], _ :: _ => .isFalse (by simp)
  | _ :: _, [] => .isFalse (by simp)
  | x :: xs, y :: ys =>
    match deq x y, deqList xs ys with
    | .isTrue h1, .isTrue h2 => .isTrue (by rw [h1, h2])
    | .isFalse h1, _ => .isFalse (by simp [h1])
    | _, .isFalse h2 => .isFalse (by simp [h2])

/-- Decidable equality for association lists of `Value`. -/
def Value.deqDict : (a b : List (String × Value)) → Decidable (a = b)
  | [], [] => .isTrue rfl
  | [], _ :: _ => .isFalse (by simp)
  | _ :: _, [] => .isFalse (by simp)
  | (k1, v1) :: xs, (k2, v2) :: ys =>
    if hk : k1 = k2 then
      match deq v1 v2, deqDict xs ys with
      | .isTrue h1, .isTrue h2 => .isTrue (by rw [hk, h1, h2])
      | .isFalse h1, _ => .isFalse (by simp [h1])
      | _, .isFalse h2 => .isFalse (by simp [h2])
    else .isFalse (by simp [hk])

end

instance : DecidableEq Value := Value.deq

/-- Python dict lookup `d.get(k)` / `d[k]` on the association-list model. -/
def lookupV (k : String) : List (String × Value) → Option Value
  | [] => Option.none
  | (k2, v) :: rest => if k2 = k then some v else lookupV k rest

/-- Python dict assignment `d[k] = v`: update in place (keeping the key's
position) when the key exists, append otherwise. -/
def setKey (k : String) (v : Value) : List (String × Value) → List (String × Value)
  | [] => [(k, v)]
  | (k2, w) :: rest => if k2 = k then (k2, v) :: rest else (k2, w) :: setKey k v rest

/-! ### ASCII text utilities (the fragment of `str` / `re` the parser uses) -/

/-- Python `str.lower()` on the ASCII fragment, as a character list. -/
def lowerS (s : String) : List Char := s.toList.map Char.toLower

/-- A word character in the sense of the regex `\w` (ASCII fragment):
letters, digits, underscore. -/
def isWordChar (c : Char) : Bool := c.isAlphanum || c = '_'

/-- Substring containment, Python `sub in s` for strings (`""` is contained
in everything, as in Python). -/
def containsSub (pat : List Char) : List Char → Bool
  | [] => pat.isEmpty
  | c :: rest => pat.isPrefixOf (c :: rest) || containsSub pat rest

/-- Split off the part of `s` before and after the first occurrence of the
(nonempty) separator `sep`; `Option.none` when `sep` does not occur.  This is
Python `s.split(sep)[0]` / `s.split(sep, 1)[1]` packaged together. -/
def splitFirst (sep : List Char) : List Char → Option (List Char × List Char)
  | [] => if sep.isEmpty then some ([], []) else Option.none
  | c :: rest =>
    if sep.isPrefixOf (c :: rest) then some ([], (c :: rest).drop sep.length)
    else
      match splitFirst sep rest with
      | some (pre, post) => some (c :: pre, post)
      | Option.none => Option.none

/-- Position of the first occurrence of `pat` in `s` (for stating claims
about "the separator occurring earliest in the text"). -/
def firstOccIdx (pat : List Char) : List Char → Option Nat
  | [] => if pat.isEmpty then some 0 else Option.none
  | c :: rest =>
    if pat.isPrefixOf (c :: rest) then some 0
    else (firstOccIdx pat rest).map (· + 1)

/-- All fragments of Python `s.split(sep)` for a nonempty separator, via a
fuel argument bounding the number of splits (`s.length + 1` packs are always
enough). -/
def splitAllFuel (sep : List Char) : Nat → List Char → List (List Char)
  | 0, s => [s]
  | n + 1, s =>
    match splitFirst sep s with
    | some (a, b) => a :: splitAllFuel sep n b
    | Option.none => [s]

/-- Python `s.split(sep)` for a nonempty separator. -/
def splitAll (sep s : List Char) : List (List Char) :=
  splitAllFuel sep (s.length + 1) s

/-- Is there a word boundary just before the current position, given the
previous character (`Option.none` at the start of the string)?  Valid for
patterns that start with a word character. -/
def boundaryOk : Option Char → Bool
  | Option.none => true
  | some c => !isWordChar c

/-- Is there a word boundary right after a match ending before `rest`?
Valid for patterns that end with a word character. -/
def afterOk : List Char → Bool
  | [] => true
  | c :: _ => !isWordChar c

/-- Scanning worker for `containsWordB`: `prev` is the character just before
the current suffix. -/
def wordSearch (phrase : List Char) : Option Char → List Char → Bool
  | prev, [] => boundaryOk prev && phrase.isEmpty
  | prev, c :: rest =>
    (boundaryOk prev && phrase.isPrefixOf (c :: rest)
      && afterOk ((c :: rest).drop phrase.length))
    || wordSearch phrase (some c) rest

/-- Truthiness of `re.search` for a pattern `\b phrase \b` where `phrase` is
a literal starting and ending with word characters (spaces inside are
literal), e.g. `\bgreater than\b`. -/
def containsWordB (phrase : String) (s : List Char) : Bool :=
  wordSearch phrase.toList Option.none s

/-- Scanning worker for `containsSymB`. -/
def symSearch (pat : List Char) : Option Char → List Char → Bool
  | _, [] => false
  | prev, c :: rest =>
    ((match prev with | some p => isWordChar p | Option.none => false)
      && pat.isPrefixOf (c :: rest)
      && (match (c :: rest).drop pat.length with
          | d :: _ => isWordChar d
          | [] => false))
    || symSearch pat (some c) rest

/-- Truthiness of `re.search` for a pattern `\b pat \b` where `pat` consists
of non-word characters (e.g. `\b>=\b`): the boundary then demands a word
character on each side. -/
def containsSymB (pat : String) (s : List Char) : Bool :=
  symSearch pat.toList Option.none s

/-- Tokens of the miniature pattern language covering the property/unit
regexes of the parser: literals, an optional single character (`x?`),
`\s*`, `\s+`, and a trailing word boundary after a word character. -/
inductive Tok where
  | lit (cs : List Char)
  | optChar (c : Char)
  | sp0
  | sp1
  | wordEnd

/-- All suffixes of `s` reachable by dropping zero or more leading
whitespace characters (used for `\s*`). -/
def spaceSuffixes : List Char → List (List Char)
  | [] => [[]]
  | c :: rest =>
    if c.isWhitespace then (c :: rest) :: spaceSuffixes rest else [c :: rest]

/-- Possible remainders after one token consumes a prefix of `s`. -/
def consumeTok : Tok → List Char → List (List Char)
  | .lit cs, s => if cs.isPrefixOf s then [s.drop cs.length] else []
  | .optChar c, s =>
    match s with
    | d :: rest => if d = c then [rest, d :: rest] else [d :: rest]
    | [] => [[]]
  | .sp0, s => spaceSuffixes s
  | .sp1, s =>
    match s with
    | c :: rest => if c.isWhitespace then spaceSuffixes rest else []
    | [] => []
  | .wordEnd, s =>
    match s with
    | [] => [[]]
    | c :: _ => if isWordChar c then [] else [s]

/-- Does the token sequence match some prefix of `s` (with backtracking)? -/
def matchToks : List Tok → List Char → Bool
  | [], _ => true
  | t :: ts, s => (consumeTok t s).any (matchToks ts)

/-- Truthiness of `re.search` for a token sequence: match at any position. -/
def searchToks (ts : List Tok) : List Char → Bool
  | [] => matchToks ts []
  | c :: rest => matchToks ts (c :: rest) || searchToks ts rest

/-- Shorthand for a literal pattern token. -/
def lit (s : String) : Tok := .lit s.toList

/-! ### Data model (`schema.py`)

`ComparisonOperator` and `LogicalOperator` are `str` enums in the source; a
member is equal (`==`) to its value string and the engine dispatches on that
equality, so both are modelled by their underlying strings together with the
lists of enumerated literals. -/

/-- The value strings of `ComparisonOperator`, in declaration order. -/
def compOpLits : List String :=
  ["equals", "not_equals", "greater_than", "less_than",
   "greater_than_or_equal", "less_than_or_equal", "in", "not_in"]

/-- The value strings of `LogicalOperator`, in declaration order. -/
def logicalOpLits : List String := ["and", "or", "not"]

/-- `ComparisonOperator(s)` succeeds exactly on the enumerated literals. -/
def compOpValid (s : String) : Bool := compOpLits.contains s

/-- `LogicalOperator(s)` succeeds exactly on the enumerated literals. -/
def logicalOpValid (s : String) : Bool := logicalOpLits.contains s

/-- `Condition` dataclass: a leaf predicate. -/
structure Condition where
  field : String
  operator : String
  value : Value
  unit : Option String
deriving Repr, DecidableEq

/-- The recursive union `Condition | ConditionGroup`: `group` carries the
`ConditionGroup` payload (logical operator string and child list). -/
inductive CondTree where
  | leaf (c : Condition) : CondTree
  | group (operator : String) (conditions : List CondTree) : CondTree
deriving Repr

mutual

/-- Decidable equality for `CondTree`. -/
def CondTree.deq : (a b : CondTree) → Decidable (a = b)
  | .leaf c1, .leaf c2 =>
    if h : c1 = c2 then .isTrue (by rw [h]) else .isFalse (by simp [h])
  | .group o1 l1, .group o2 l2 =>
    if ho : o1 = o2 then
      match deqList l1 l2 with
      | .isTrue h => .isTrue (by rw [ho, h])
      | .isFalse h => .isFalse (by simp [h])
    else .isFalse (by simp [ho])
  | .leaf _, .group _ _ => .isFalse (by simp)
  | .group _ _, .leaf _ => .isFalse (by simp)

/-- Decidable equality for lists of `CondTree`. -/
def CondTree.deqList : (a b : List CondTree) → Decidable (a = b)
  | [], [] => .isTrue rfl
  | [], _ :: _ => .isFalse (by simp)
  | _ :: _, [] => .isFalse (by simp)
  | x :: xs, y :: ys =>
    match deq x y, deqList xs ys with
    | .isTrue h1, .isTrue h2 => .isTrue (by rw [h1, h2])
    | .isFalse h1, _ => .isFalse (by simp [h1])
    | _, .isFalse h2 => .isFalse (by simp [h2])

end

instance : DecidableEq CondTree := CondTree.deq

/-- `Action` dataclass. -/
structure Action where
  action_type : String
  target : String
  value : Value
  parameters : List (String × Value)
deriving Repr, DecidableEq

/-- `Rule` dataclass. -/
structure Rule where
  id : String
  name : String
  description : String
  category : String
  conditions : CondTree
  actions : List Action
  priority : Int
  metadata : List (String × Value)
deriving Repr, DecidableEq

/-- `RuleSchema` dataclass. -/
structure RuleSchema where
  version : String
  rules : List Rule
  metadata : List (String × Value)
deriving Repr, DecidableEq

/-! ### Parser (`parser.py`) -/

/-- One row of `RuleParser.OPERATOR_PATTERNS` as its match predicate:
`\bequals?\b|\bis\b|\b=\b`. -/
def opRowEquals (s : List Char) : Bool :=
  containsWordB "equal" s || containsWordB "equals" s || containsWordB "is" s
    || containsSymB "=" s

/-- Row `\bnot equal(s)?\b|\bis not\b|\b!=\b`. -/
def opRowNotEquals (s : List Char) : Bool :=
  containsWordB "not equal" s || containsWordB "not equals" s
    || containsWordB "is not" s || containsSymB "!=" s

/-- Row `\bgreater than or equal\b|\b>=\b|\bat least\b`. -/
def opRowGte (s : List Char) : Bool :=
  containsWordB "greater than or equal" s || containsSymB ">=" s
    || containsWordB "at least" s

/-- Row `\bless than or equal\b|\b<=\b|\bat most\b`. -/
def opRowLte (s : List Char) : Bool :=
  containsWordB "less than or equal" s || containsSymB "<=" s
    || containsWordB "at most" s

/-- Row `\bgreater than\b|\b>\b|\bmore than\b|\bexceeds\b`. -/
def opRowGt (s : List Char) : Bool :=
  containsWordB "greater than" s || containsSymB ">" s
    || containsWordB "more than" s || containsWordB "exceeds" s

/-- Row `\bless than\b|\b<\b|\bbelow\b`. -/
def opRowLt (s : List Char) : Bool :=
  containsWordB "less than" s || containsSymB "<" s || containsWordB "below" s

/-- `RuleParser.OPERATOR_PATTERNS`: the ordered pattern table (Python dicts
iterate in insertion order), each row paired with its operator string. -/
def opRows : List ((List Char → Bool) × String) :=
  [(opRowEquals, "equals"), (opRowNotEquals, "not_equals"),
   (opRowGte, "greater_than_or_equal"), (opRowLte, "less_than_or_equal"),
   (opRowGt, "greater_than"), (opRowLt, "less_than")]

/-- The operator-detection loop of `_parse_single_condition`: first matching
row wins, default `EQUALS`. -/
def findOperator (s : List Char) : String :=
  match opRows.find? (fun row => row.1 s) with
  | some row => row.2
  | Option.none => "equals"

/-- `RuleParser.PROPERTY_PATTERNS`: ordered rows of (pattern alternatives,
canonical property name). -/
def propertyRows : List (List (List Tok) × String) :=
  [([[lit "building", .sp1, lit "area"]], "building_area"),
   ([[lit "floor", .sp1, lit "area"]], "floor_area"),
   ([[lit "climate", .sp1, lit "zone"]], "climate_zone"),
   ([[lit "building", .sp1, lit "type"]], "building_type"),
   ([[lit "number", .sp1, lit "of", .sp1, lit "stories"]], "num_stories"),
   ([[lit "lighting", .sp1, lit "power", .sp1, lit "density"]],
     "lighting_power_density"),
   ([[lit "window", .sp1, lit "to", .sp1, lit "wall", .sp1, lit "ratio"]],
     "window_to_wall_ratio"),
   ([[lit "u", .optChar '-', lit "factor"]], "u_factor"),
   ([[lit "r", .optChar '-', lit "value"]], "r_value"),
   ([[lit "shgc"]], "shgc"),
   ([[lit "cop"]], "cop"),
   ([[lit "efficiency"]], "efficiency")]

/-- Does any alternative of a pattern row match somewhere in `s`? -/
def rowMatches (alts : List (List Tok)) (s : List Char) : Bool :=
  alts.any (fun ts => searchToks ts s)

/-- The field-detection loop: first matching property row wins, default
field is the literal `"property"`. -/
def findField (s : List Char) : String :=
  match propertyRows.find? (fun row => rowMatches row.1 s) with
  | some row => row.2
  | Option.none => "property"

/-- `RuleParser.UNIT_PATTERNS` as ordered rows of (alternatives, unit). -/
def unitRows : List (List (List Tok) × String) :=
  [([[lit "sq", .optChar '.', .sp0, lit "ft", .optChar '.'],
     [lit "square", .sp1, lit "fee", .optChar 't']], "sqft"),
   ([[lit "sq", .optChar '.', .sp0, lit "m", .optChar '.'],
     [lit "square", .sp1, lit "meter", .optChar 's']], "sqm"),
   ([[lit "w/sq", .optChar '.', .sp0, lit "ft", .optChar '.'],
     [lit "watt", .optChar 's', .sp1, lit "per", .sp1, lit "square", .sp1,
      lit "foot"]], "W/sqft"),
   ([[lit "w/sq", .optChar '.', .sp0, lit "m", .optChar '.'],
     [lit "watt", .optChar 's', .sp1, lit "per", .sp1, lit "square", .sp1,
      lit "meter"]], "W/sqm"),
   ([[.optChar '°', lit "f", .wordEnd], [lit "fahrenheit"]], "degF"),
   ([[.optChar '°', lit "c", .wordEnd], [lit "celsius"]], "degC"),
   ([[lit "btu"]], "BTU"),
   ([[lit "percent"], [lit "%"]], "percent")]

/-- The unit-detection loop: first matching unit row, if any. -/
def findUnit (s : List Char) : Option String :=
  (unitRows.find? (fun row => rowMatches row.1 s)).map (fun row => row.2)

/-- Numeric value of a list of ASCII digits. -/
def digitsToNat (ds : List Char) : Nat :=
  ds.foldl (fun n c => n * 10 + (c.toNat - '0'.toNat)) 0

/-- Scanning worker for `numberSearch` (carries the previous character for
the leading `\b`). -/
def numberSearchAux : Option Char → List Char → Option (List Char)
  | _, [] => Option.none
  | prev, c :: rest =>
    if boundaryOk prev && c.isDigit then
      let d1 := (c :: rest).takeWhile Char.isDigit
      let r1 := (c :: rest).drop d1.length
      match r1 with
      | '.' :: r2 =>
        let d2 := r2.takeWhile Char.isDigit
        let r3 := r2.drop d2.length
        if !d2.isEmpty && afterOk r3 then some (d1 ++ '.' :: d2) else some d1
      | _ =>
        if afterOk r1 then some d1 else numberSearchAux (some c) rest
    else numberSearchAux (some c) rest

/-- Leftmost match of `\b(\d+(?:\.\d+)?)\b`, returning the matched digit
string.  When the fractional part cannot complete with a word boundary, the
regex backtracks to the bare integer part, whose following `.` is itself a
boundary — hence the unconditional `some d1` fallback in the `.` case. -/
def numberSearch (s : List Char) : Option (List Char) :=
  numberSearchAux Option.none s

/-- Turn a matched digit string into the parsed value:
`float(s) if '.' in s else int(s)`. -/
def numToValue (ds : List Char) : Value :=
  match splitFirst ['.'] ds with
  | some (d1, d2) =>
    .float ((digitsToNat d1 : ℚ) + (digitsToNat d2 : ℚ) / ((10 : ℚ) ^ d2.length))
  | Option.none => .int (digitsToNat ds)

/-- Is `c` one of the two quote characters of `["\']`? -/
def isQuoteChar (c : Char) : Bool := c = '"' || c.toNat = 39

/-- Leftmost match of `["\']([^"\']+)["\']`, returning the captured group:
the first maximal nonempty run of non-quote characters enclosed between two
quote characters (the quotes need not be of the same kind). -/
def quotedSearch : List Char → Option (List Char)
  | [] => Option.none
  | c :: rest =>
    if isQuoteChar c then
      let content := rest.takeWhile (fun d => !isQuoteChar d)
      let after := rest.drop content.length
      if !content.isEmpty && !after.isEmpty then some content
      else quotedSearch rest
    else quotedSearch rest

/-- ASCII lowercase letter, the class `[a-z]`. -/
def isLowerAscii (c : Char) : Bool := 'a' ≤ c && c ≤ 'z'

/-- Leftmost match of `zone\s+(\d+[a-z]?)`, returning the captured group. -/
def zoneSearch : List Char → Option (List Char)
  | [] => Option.none
  | c :: rest =>
    let s := c :: rest
    if "zone".toList.isPrefixOf s then
      let r1 := s.drop 4
      let ws := r1.takeWhile Char.isWhitespace
      if !ws.isEmpty then
        let r2 := r1.drop ws.length
        let ds := r2.takeWhile Char.isDigit
        if !ds.isEmpty then
          match r2.drop ds.length with
          | c2 :: _ => if isLowerAscii c2 then some (ds ++ [c2]) else some ds
          | [] => some ds
        else zoneSearch rest
      else zoneSearch rest
    else zoneSearch rest

/-- Match a keyword followed by `\s+` and a nonempty greedy run of
characters in `cls`, at the start of `s`; returns the captured run. -/
def tryKw (kw : List Char) (cls : Char → Bool) (s : List Char) : Option (List Char) :=
  if kw.isPrefixOf s then
    let r1 := s.drop kw.length
    let ws := r1.takeWhile Char.isWhitespace
    if !ws.isEmpty then
      let tok := (r1.drop ws.length).takeWhile cls
      if !tok.isEmpty then some tok else Option.none
    else Option.none
  else Option.none

/-- The character class `[a-z0-9_-]` of the method-name pattern. -/
def methodClass (c : Char) : Bool :=
  isLowerAscii c || c.isDigit || c = '_' || c = '-'

/-- The character class `[a-z0-9_.-]` of the table-name pattern. -/
def tableClass (c : Char) : Bool := methodClass c || c = '.'

/-- Leftmost match of `(method|procedure)\s+([a-z0-9_-]+)`, returning
group 2. -/
def methodSearch : List Char → Option (List Char)
  | [] => Option.none
  | c :: rest =>
    match tryKw "method".toList methodClass (c :: rest) with
    | some t => some t
    | Option.none =>
      match tryKw "procedure".toList methodClass (c :: rest) with
      | some t => some t
      | Option.none => methodSearch rest

/-- Leftmost match of `table\s+([a-z0-9_.-]+)`, returning group 1. -/
def tableSearch : List Char → Option (List Char)
  | [] => Option.none
  | c :: rest =>
    match tryKw "table".toList tableClass (c :: rest) with
    | some t => some t
    | Option.none => tableSearch rest

/-- The value-extraction cascade of `_parse_single_condition`: a numeric
literal first, else a quoted string (searched in the segment as passed in,
`textOrig`, while everything else uses the lowered text), else one of the
keywords office/retail/residential, else a `zone <alnum>` capture, else the
empty string. -/
def findValue (textOrig textLower : List Char) : Value :=
  match numberSearch textLower with
  | some ds => numToValue ds
  | Option.none =>
    match quotedSearch textOrig with
    | some q => .str (String.mk q)
    | Option.none =>
      if containsSub "office".toList textLower then .str "office"
      else if containsSub "retail".toList textLower then .str "retail"
      else if containsSub "residential".toList textLower then .str "residential"
      else
        match zoneSearch textLower with
        | some z => .str (String.mk z)
        | Option.none => .str ""

/-- `RuleParser._parse_single_condition` on a segment (as a character list;
the function lowers the segment itself, and searches quoted values in the
segment exactly as given, mirroring the source). -/
def parseSingleCondition (text : List Char) : Condition :=
  let textLower := text.map Char.toLower
  { field := findField textLower
    operator := findOperator textLower
    value := findValue text textLower
    unit := findUnit textLower }

/-- The separator token list of `_extract_conditions`, in the order the
source iterates it. -/
def condSeparators : List String := [" then ", " set ", " apply ", " use "]

/-- The condition segment computed by `_extract_conditions`: the text before
the first occurrence of the first separator (in the fixed list order) that
occurs in the lowered text; the original, unlowered text when none occurs. -/
def condSegment (text : String) : List Char :=
  let tl := lowerS text
  match condSeparators.find? (fun sep => containsSub sep.toList tl) with
  | some sep =>
    match splitFirst sep.toList tl with
    | some (a, _) => a
    | Option.none => tl
  | Option.none => text.toList

/-- `RuleParser._parse_condition_group`: choose `or` if the literal
substring `" or "` occurs, else `and`; split the segment on that separator
and parse every part as a single condition. -/
def parseConditionGroup (text : List Char) : CondTree :=
  let textLower := text.map Char.toLower
  let operator := if containsSub " or ".toList textLower then "or" else "and"
  let sep := if operator = "and" then " and " else " or "
  let parts := splitAll sep.toList textLower
  .group operator (parts.map (fun p => .leaf (parseSingleCondition p)))

/-- `RuleParser._extract_conditions`: note that the whole-word `and`/`or`
test runs over the FULL lowered text, while the split into a condition
segment happens afterwards. -/
def extractConditions (text : String) : CondTree :=
  let tl := lowerS text
  let hasAnd := containsWordB "and" tl
  let hasOr := containsWordB "or" tl
  let ct := condSegment text
  if hasAnd || hasOr then parseConditionGroup ct
  else .leaf (parseSingleCondition ct)

/-- Is the parse result a `ConditionGroup` (rather than a single
`Condition`)? -/
def isGroup : CondTree → Bool
  | .group _ _ => true
  | .leaf _ => false

/-- The fallback action `_extract_actions` produces when no action keyword
is found. -/
def fallbackAction : Action :=
  { action_type := "evaluate", target := "compliance", value := .str "check",
    parameters := [] }

/-- The action built from the action segment (the branch of
`_extract_actions` taken when `" then "` or `" set "` occurs). -/
def actionFromSegment (actionText : List Char) : Action :=
  let target := findField actionText
  match numberSearch actionText with
  | some ds =>
    { action_type := "set_value", target := target, value := numToValue ds,
      parameters := [] }
  | Option.none =>
    if containsSub "method".toList actionText
        || containsSub "procedure".toList actionText then
      { action_type := "apply_method", target := target,
        value := match methodSearch actionText with
                 | some t => .str (String.mk t)
                 | Option.none => .str ""
        parameters := [] }
    else if containsSub "table".toList actionText then
      { action_type := "reference_table", target := target,
        value := match tableSearch actionText with
                 | some t => .str (String.mk t)
                 | Option.none => .str ""
        parameters := [] }
    else
      { action_type := "set_value", target := target, value := .str "",
        parameters := [] }

/-- `RuleParser._extract_actions`: only `" then "` and `" set "` trigger
action extraction (the action segment is the text after the first of those
two, in that preference order); otherwise the single fallback action. -/
def extractActions (text : String) : List Action :=
  let tl := lowerS text
  if containsSub " then ".toList tl || containsSub " set ".toList tl then
    let actionText :=
      match [" then ", " set "].find? (fun sep => containsSub sep.toList tl) with
      | some sep =>
        match splitFirst sep.toList tl with
        | some (_, b) => b
        | Option.none => tl
      | Option.none => tl
    [actionFromSegment actionText]
  else [fallbackAction]

/-- Python `text.split()`: split on whitespace runs, dropping empties. -/
def wsWords : List Char → List (List Char)
  | [] => []
  | c :: rest =>
    if c.isWhitespace then wsWords rest
    else
      let w := (c :: rest).takeWhile (fun d => !d.isWhitespace)
      w :: wsWords ((c :: rest).drop w.length)
termination_by s => s.length
decreasing_by
  all_goals simp_all [List.length_drop]
  omega

/-- `RuleParser._generate_rule_name`: join the first six whitespace-separated
words, appending an ellipsis when there are more. -/
def generateRuleName (text : String) : String :=
  let words := wsWords text.toList
  let name := String.intercalate " " ((words.take 6).map String.mk)
  if words.length > 6 then name ++ "..." else name

/-- Python `str.strip()` (ASCII whitespace). -/
def stripS (s : String) : String :=
  String.mk (((s.toList.dropWhile Char.isWhitespace).reverse.dropWhile
    Char.isWhitespace).reverse)

/-- `RuleParser.parse_rule_text` with an explicitly supplied rule id (the
auto-generated counter ids are orthogonal to every claim). -/
def parseRuleText (text : String) (ruleId : String) (category : String) : Rule :=
  { id := ruleId
    name := generateRuleName text
    description := stripS text
    category := category
    conditions := extractConditions text
    actions := extractActions text
    priority := 0
    metadata := [] }

/-! ### Engine (`engine.py`) -/

mutual

/-- Python `==` on the modelled values: `int`/`float` compare numerically
across kinds (`10 == 10.0` is true), strings compare as strings, lists
elementwise, dicts by length plus key-by-key value equality (Python dicts
have unique keys, so this matches Python's order-insensitive dict
equality); values of different kinds otherwise compare unequal, with no
string-to-number coercion. -/
def pyEq : Value → Value → Bool
  | .none, .none => true
  | .int a, .int b => a = b
  | .int a, .float q => (a : ℚ) = q
  | .float q, .int a => q = (a : ℚ)
  | .float a, .float b => a = b
  | .str a, .str b => a = b
  | .list a, .list b => pyEqList a b
  | .dict a, .dict b => a.length = b.length && pyEqEntries a b
  | _, _ => false

/-- Elementwise Python `==` on lists. -/
def pyEqList : List Value → List Value → Bool
  | [], [] => true
  | a :: as2, b :: bs => pyEq a b && pyEqList as2 bs
  | _, _ => false

/-- Every entry of the first dict has a matching value in the second. -/
def pyEqEntries : List (String × Value) → List (String × Value) → Bool
  | [], _ => true
  | (k, v) :: rest, d => pyEqLookup k v d && pyEqEntries rest d

/-- Does key `k` map in `d` to a value Python-equal to `v`? -/
def pyEqLookup (k : String) (v : Value) : List (String × Value) → Bool
  | [] => false
  | (k2, w) :: rest => if k2 = k then pyEq v w else pyEqLookup k v rest

end

/-- Python `float(<str>)` on finite decimal literals: optional surrounding
whitespace, optional sign, `d+`, `d+.d*`, or `.d+`, with an optional
exponent (`inf`/`nan`/underscores are outside the modelled fragment). -/
def parseFloatChars (s0 : List Char) : Option ℚ :=
  let s1 := (s0.dropWhile Char.isWhitespace).reverse.dropWhile Char.isWhitespace
  let s2 := s1.reverse
  let (sign, s3) : ℚ × List Char :=
    match s2 with
    | '-' :: r => (-1, r)
    | '+' :: r => (1, r)
    | _ => (1, s2)
  let d1 := s3.takeWhile Char.isDigit
  let r1 := s3.drop d1.length
  let (d2, r2) : List Char × List Char :=
    match r1 with
    | '.' :: r => (r.takeWhile Char.isDigit, r.drop (r.takeWhile Char.isDigit).length)
    | _ => ([], r1)
  if d1.isEmpty && d2.isEmpty then Option.none
  else
    let mantissa : ℚ :=
      sign * ((digitsToNat d1 : ℚ) + (digitsToNat d2 : ℚ) / ((10 : ℚ) ^ d2.length))
    match r2 with
    | [] => some mantissa
    | e :: r3 =>
      if e = 'e' || e = 'E' then
        let (esign, r4) : Int × List Char :=
          match r3 with
          | '-' :: r => (-1, r)
          | '+' :: r => (1, r)
          | _ => (1, r3)
        let ed := r4.takeWhile Char.isDigit
        if ed.isEmpty || !(r4.drop ed.length).isEmpty then Option.none
        else some (mantissa * (10 : ℚ) ^ (esign * (digitsToNat ed : Int)))
      else Option.none

/-- Python `float(x)` coercion: succeeds on `int`, `float` and numeric
strings; `None`, lists and dicts raise (`Option.none` models the raised
`TypeError`/`ValueError` that `_evaluate_condition` catches). -/
def pyFloat : Value → Option ℚ
  | .int n => some (n : ℚ)
  | .float q => some q
  | .str s => parseFloatChars s.toList
  | _ => Option.none

/-- Python `x in container` (`Option.none` models the `TypeError` raised on
non-iterable containers or unhashable/ill-typed members): substring test
for string containers, `==`-membership for lists, key membership for
dicts. -/
def pyIn (x container : Value) : Option Bool :=
  match container with
  | .str s =>
    match x with
    | .str t => some (containsSub t.toList s.toList)
    | _ => Option.none
  | .list l => some (l.any (fun e => pyEq x e))
  | .dict d =>
    match x with
    | .str t => some (d.any (fun kv => kv.1 = t))
    | .list _ => Option.none
    | .dict _ => Option.none
    | _ => some false
  | _ => Option.none

/-- The body of `float(field_value) <cmp> float(target_value)` inside the
`try` block: coerce both sides, compare on success, `false` on a raised
coercion error (caught by the surrounding `except`). -/
def floatCmp (cmp : ℚ → ℚ → Bool) (v w : Value) : Bool :=
  match pyFloat v, pyFloat w with
  | some a, some b => cmp a b
  | _, _ => false

/-- `BaselineEngine._evaluate_condition`: absent or `None` field values
never match; the operator string is dispatched by equality (a `str` enum
member equals its value string), the ordering operators coerce both sides
with `float(...)`, and every raised coercion/membership error is caught and
resolved to `false`; an unrecognized operator string falls through to
`false`. -/
def evalCondition (c : Condition) (spec : List (String × Value)) : Bool :=
  match lookupV c.field spec with
  | Option.none => false
  | some .none => false
  | some v =>
    let tv := c.value
    if c.operator = "equals" then pyEq v tv
    else if c.operator = "not_equals" then !pyEq v tv
    else if c.operator = "greater_than" then floatCmp (fun a b => b < a) v tv
    else if c.operator = "less_than" then floatCmp (fun a b => a < b) v tv
    else if c.operator = "greater_than_or_equal" then
      floatCmp (fun a b => b ≤ a) v tv
    else if c.operator = "less_than_or_equal" then
      floatCmp (fun a b => a ≤ b) v tv
    else if c.operator = "in" then
      match pyIn v tv with
      | some b => b
      | Option.none => false
    else if c.operator = "not_in" then
      match pyIn v tv with
      | some b => !b
      | Option.none => false
    else false

mutual

/-- `BaselineEngine.evaluate_rule` / `_evaluate_condition_group`: leaves go
to `_evaluate_condition`; groups collect child results and combine with
`and` = all (vacuously true), `or` = any (vacuously false), `not` = NOR;
an unknown logical operator yields `false`. -/
def evalTree : CondTree → List (String × Value) → Bool
  | .leaf c, spec => evalCondition c spec
  | .group op cs, spec =>
    let results := evalTreeList cs spec
    if op = "and" then results.all (fun b => b)
    else if op = "or" then results.any (fun b => b)
    else if op = "not" then !(results.any (fun b => b))
    else false

/-- Child results of a condition group, in order. -/
def evalTreeList : List CondTree → List (String × Value) → List Bool
  | [], _ => []
  | t :: ts, spec => evalTree t spec :: evalTreeList ts spec

end

/-- `BaselineEngine.evaluate_rule` on the typed condition tree. -/
def evalRule (r : Rule) (spec : List (String × Value)) : Bool :=
  evalTree r.conditions spec

/-- Stable insertion (into an already priority-descending list) preserving
the original order of equal priorities: walk past strictly greater
priorities only. -/
def insertRuleDesc (r : Rule) : List Rule → List Rule
  | [] => [r]
  | x :: xs =>
    if r.priority < x.priority then x :: insertRuleDesc r xs else r :: x :: xs

/-- Python `sorted(rules, key=lambda r: r.priority, reverse=True)`: the
stable descending sort by priority (Python's `sorted` is stable and
`reverse=True` preserves the original order of equal keys; a stable sort by
a total preorder is unique, so this insertion sort is extensionally the
same function). -/
def sortRulesDesc (rules : List Rule) : List Rule :=
  rules.foldr insertRuleDesc []

/-- The single-action step of `BaselineEngine._apply_actions`, mutating the
baseline-properties dict. -/
def applyAction (props : List (String × Value)) (a : Action) : List (String × Value) :=
  if a.action_type = "set_value" then setKey a.target a.value props
  else if a.action_type = "apply_method" then
    setKey a.target (.dict [("method", a.value), ("parameters", .dict a.parameters)]) props
  else if a.action_type = "reference_table" then
    setKey a.target (.dict [("table", a.value), ("parameters", .dict a.parameters)]) props
  else if a.action_type = "evaluate" then setKey a.target a.value props
  else
    let props1 :=
      if (lookupV a.target props).isNone then setKey a.target (.dict []) props
      else props
    setKey a.target
      (.dict [("action_type", .str a.action_type), ("value", a.value),
              ("parameters", .dict a.parameters)]) props1

/-- `BaselineEngine._apply_actions` over an action list. -/
def applyActions (actions : List Action) (props : List (String × Value)) :
    List (String × Value) :=
  actions.foldl applyAction props

/-- One entry of `matched_rules`. -/
structure MatchEntry where
  rule_id : String
  rule_name : String
  category : String
deriving Repr, DecidableEq

/-- One entry of `evaluation_log`. -/
structure LogEntry where
  rule_id : String
  status : String
  message : String
deriving Repr, DecidableEq

/-- The baseline document produced by `BaselineEngine.evaluate`. -/
structure BaselineDoc where
  input : List (String × Value)
  matched_rules : List MatchEntry
  baseline_properties : List (String × Value)
  evaluation_log : List LogEntry
deriving Repr, DecidableEq

/-- The per-rule step of the `evaluate` loop. -/
def evalStep (spec : List (String × Value)) (doc : BaselineDoc) (r : Rule) :
    BaselineDoc :=
  if evalRule r spec then
    { doc with
      matched_rules := doc.matched_rules
        ++ [{ rule_id := r.id, rule_name := r.name, category := r.category }]
      baseline_properties := applyActions r.actions doc.baseline_properties
      evaluation_log := doc.evaluation_log
        ++ [{ rule_id := r.id, status := "matched",
              message := "Rule '" ++ r.name ++ "' matched and applied" }] }
  else
    { doc with
      evaluation_log := doc.evaluation_log
        ++ [{ rule_id := r.id, status := "not_matched",
              message := "Rule '" ++ r.name ++ "' conditions not met" }] }

/-- `BaselineEngine.evaluate`: sort by priority descending (stable), then
fold the per-rule step over the sorted list starting from the empty
baseline document. -/
def evaluate (rules : List Rule) (spec : List (String × Value)) : BaselineDoc :=
  (sortRulesDesc rules).foldl (evalStep spec)
    { input := spec, matched_rules := [], baseline_properties := [],
      evaluation_log := [] }

/-! ### Serialization (`schema.py` `to_dict` / `from_dict`)

Python truthiness drives the optional keys: `if self.unit:` omits both
`None` and the empty string, `if self.metadata:` / `if self.parameters:`
omit empty dicts. -/

/-- Truthiness of the optional `unit` string (`None` and `""` are falsy). -/
def unitTruthy : Option String → Bool
  | Option.none => false
  | some u => !(u = "")

/-- `Condition.to_dict`. -/
def condToDict (c : Condition) : Value :=
  .dict ([("field", .str c.field), ("operator", .str c.operator),
          ("value", c.value)]
    ++ (match c.unit with
        | some u => if u = "" then [] else [("unit", .str u)]
        | Option.none => []))

mutual

/-- `Condition.to_dict` / `ConditionGroup.to_dict` over the tree. -/
def treeToDict : CondTree → Value
  | .leaf c => condToDict c
  | .group op cs =>
    .dict [("operator", .str op), ("conditions", .list (treeListToDict cs))]

/-- Serialize a list of child trees. -/
def treeListToDict : List CondTree → List Value
  | [] => []
  | t :: ts => treeToDict t :: treeListToDict ts

end

/-- `Action.to_dict`. -/
def actionToDict (a : Action) : Value :=
  .dict ([("action_type", .str a.action_type), ("target", .str a.target),
          ("value", a.value)]
    ++ (if a.parameters.isEmpty then [] else [("parameters", .dict a.parameters)]))

/-- `Rule.to_dict`. -/
def ruleToDict (r : Rule) : Value :=
  .dict ([("id", .str r.id), ("name", .str r.name),
          ("description", .str r.description), ("category", .str r.category),
          ("conditions", treeToDict r.conditions),
          ("actions", .list (r.actions.map actionToDict)),
          ("priority", .int r.priority)]
    ++ (if r.metadata.isEmpty then [] else [("metadata", .dict r.metadata)]))

/-- `RuleSchema.to_dict`. -/
def schemaToDict (s : RuleSchema) : Value :=
  .dict ([("version", .str s.version),
          ("rules", .list (s.rules.map ruleToDict))]
    ++ (if s.metadata.isEmpty then [] else [("metadata", .dict s.metadata)]))

/-- `RuleSchema._parse_condition`: required keys `field`/`operator`/`value`,
optional `unit`; the operator literal must be in the enumerated set
(`ComparisonOperator(...)` raises otherwise).  `Option.none` models every
raised `KeyError`/`ValueError`, and also the ill-typed payloads the typed
data model cannot represent. -/
def condFromDict (m : List (String × Value)) : Option Condition :=
  match lookupV "field" m, lookupV "operator" m, lookupV "value" m with
  | some (.str f), some (.str op), some v =>
    if compOpValid op then
      match lookupV "unit" m with
      | Option.none => some { field := f, operator := op, value := v, unit := Option.none }
      | some (.str u) => some { field := f, operator := op, value := v, unit := some u }
      | some _ => Option.none
    else Option.none
  | _, _, _ => Option.none

/-- Size of a looked-up value is below the size of the enclosing dict
(for the termination of `treeFromDict`). -/
def lookupV_sizeOf_lt {k : String} :
    ∀ {m : List (String × Value)} {v : Value},
      lookupV k m = some v → sizeOf v < sizeOf (Value.dict m)
  | [], v, h => by simp [lookupV] at h
  | (k2, w) :: rest, v, h => by
    by_cases hk : k2 = k
    · simp [lookupV, hk] at h
      subst h
      simp
      omega
    · simp [lookupV, hk] at h
      have := lookupV_sizeOf_lt (m := rest) h
      simp at this ⊢
      omega

mutual

/-- `RuleSchema.from_dict`'s condition parsing: a dict with both an
`operator` and a `conditions` key is a `ConditionGroup` (whose operator
literal must be in the logical enum and whose children parse recursively);
otherwise it parses as a single `Condition`. -/
def treeFromDict : Value → Option CondTree
  | .dict m =>
    match h1 : lookupV "operator" m, h2 : lookupV "conditions" m with
    | some opv, some condsv =>
      match opv, condsv with
      | .str s, .list items =>
        if logicalOpValid s then (treeListFromDict items).map (CondTree.group s)
        else Option.none
      | _, _ => Option.none
    | some _, Option.none => (condFromDict m).map CondTree.leaf
    | Option.none, _ => (condFromDict m).map CondTree.leaf
  | _ => Option.none
termination_by v => sizeOf v
decreasing_by
  have hc := lookupV_sizeOf_lt h2
  simp at hc ⊢
  omega

/-- Parse a serialized list of child condition trees. -/
def treeListFromDict : List Value → Option (List CondTree)
  | [] => some []
  | v :: rest =>
    match treeFromDict v, treeListFromDict rest with
    | some t, some ts => some (t :: ts)
    | _, _ => Option.none
termination_by l => sizeOf l
decreasing_by
  all_goals simp
  all_goals omega

end

/-- Sequence a fallible parse over a list, failing on the first failure
(the behaviour of the `for`-loop/list-comprehension in `from_dict`). -/
def mapMOpt (f : α → Option β) : List α → Option (List β)
  | [] => some []
  | a :: l =>
    match f a, mapMOpt f l with
    | some b, some bs => some (b :: bs)
    | _, _ => Option.none

/-- `from_dict`'s action parsing. -/
def actionFromDict (v : Value) : Option Action :=
  match v with
  | .dict m =>
    match lookupV "action_type" m, lookupV "target" m, lookupV "value" m with
    | some (.str at2), some (.str tg), some av =>
      match lookupV "parameters" m with
      | Option.none => some { action_type := at2, target := tg, value := av, parameters := [] }
      | some (.dict d) => some { action_type := at2, target := tg, value := av, parameters := d }
      | some _ => Option.none
    | _, _, _ => Option.none
  | _ => Option.none

/-- `from_dict`'s rule parsing: required `conditions`, `actions`, `id`,
`name`, `description`, `category`; `priority` defaults to 0 and `metadata`
to the empty dict. -/
def ruleFromDict (v : Value) : Option Rule :=
  match v with
  | .dict m =>
    match lookupV "conditions" m with
    | some cv =>
      match treeFromDict cv with
      | some tree =>
        match lookupV "actions" m with
        | some (.list avs) =>
          match mapMOpt actionFromDict avs with
          | some acts =>
            match lookupV "id" m, lookupV "name" m,
                lookupV "description" m, lookupV "category" m with
            | some (.str i), some (.str n), some (.str d), some (.str c) =>
              match
                (match lookupV "priority" m with
                 | Option.none => some (0 : Int)
                 | some (.int p) => some p
                 | some _ => Option.none),
                (match lookupV "metadata" m with
                 | Option.none => some ([] : List (String × Value))
                 | some (.dict md) => some md
                 | some _ => Option.none) with
              | some p, some md =>
                some { id := i, name := n, description := d, category := c,
                       conditions := tree, actions := acts, priority := p,
                       metadata := md }
              | _, _ => Option.none
            | _, _, _, _ => Option.none
          | Option.none => Option.none
        | _ => Option.none
      | Option.none => Option.none
    | Option.none => Option.none
  | _ => Option.none

/-- `RuleSchema.from_dict`: `rules` defaults to the empty list, `version`
is required, `metadata` defaults to the empty dict. -/
def schemaFromDict (v : Value) : Option RuleSchema :=
  match v with
  | .dict m =>
    match (lookupV "rules" m).getD (.list []) with
    | .list rvs =>
      match mapMOpt ruleFromDict rvs with
      | some rules =>
        match lookupV "version" m with
        | some (.str ver) =>
          match lookupV "metadata" m with
          | Option.none => some { version := ver, rules := rules, metadata := [] }
          | some (.dict md) => some { version := ver, rules := rules, metadata := md }
          | some _ => Option.none
        | _ => Option.none
      | Option.none => Option.none
    | _ => Option.none
  | _ => Option.none

mutual

/-- Wellformedness of a condition tree as a value of the declared data
model: comparison/logical operator literals lie in their enumerated sets,
and no unit is the (falsy) empty string — i.e. the unit is truthy exactly
when it is present. -/
def treeWF : CondTree → Bool
  | .leaf c =>
    compOpValid c.operator && (unitTruthy c.unit == (c.unit).isSome)
  | .group op cs => logicalOpValid op && treeListWF cs

/-- Wellformedness of a list of condition trees. -/
def treeListWF : List CondTree → Bool
  | [] => true
  | t :: ts => treeWF t && treeListWF ts

end

/-- Wellformedness of a rule: its condition tree is wellformed. -/
def ruleWF (r : Rule) : Bool := treeWF r.conditions

/-- Wellformedness of a schema: every rule is wellformed. -/
def schemaWF (s : RuleSchema) : Bool := s.rules.all ruleWF

/-! ### Derived forms and lemmas about the engine -/

/-- The value `_apply_actions` stores for one action (its `set_value` /
`apply_method` / `reference_table` / `evaluate` / generic branches). -/
def storedValue (a : Action) : Value :=
  if a.action_type = "set_value" then a.value
  else if a.action_type = "apply_method" then
    .dict [("method", a.value), ("parameters", .dict a.parameters)]
  else if a.action_type = "reference_table" then
    .dict [("table", a.value), ("parameters", .dict a.parameters)]
  else if a.action_type = "evaluate" then a.value
  else
    .dict [("action_type", .str a.action_type), ("value", a.value),
           ("parameters", .dict a.parameters)]

/-- The (target, stored value) writes one rule's actions perform, in
order. -/
def ruleWrites (r : Rule) : List (String × Value) :=
  r.actions.map (fun a => (a.target, storedValue a))

/-- Apply a list of key/value writes to a dict, left to right. -/
def applyWrites (ws : List (String × Value)) (props : List (String × Value)) :
    List (String × Value) :=
  ws.foldl (fun d kv => setKey kv.1 kv.2 d) props

/-- The flattened write sequence `evaluate` performs for a rule list
processed in the given order against `spec`: the writes of each matched
rule, in processing order. -/
def writesOf (rs : List Rule) (spec : List (String × Value)) :
    List (String × Value) :=
  (rs.filter (fun r => evalRule r spec)).foldr (fun r acc => ruleWrites r ++ acc) []

/-- The value of the last write to key `k` in a write sequence, if any. -/
def lastVal (k : String) : List (String × Value) → Option Value
  | [] => Option.none
  | kv :: rest =>
    match lastVal k rest with
    | some v => some v
    | Option.none => if kv.1 = k then some kv.2 else Option.none

/-- The log entry `evaluate` appends for a rule. -/
def logFor (spec : List (String × Value)) (r : Rule) : LogEntry :=
  if evalRule r spec then
    { rule_id := r.id, status := "matched",
      message := "Rule '" ++ r.name ++ "' matched and applied" }
  else
    { rule_id := r.id, status := "not_matched",
      message := "Rule '" ++ r.name ++ "' conditions not met" }

/-! ### Definitions used only to state claims -/

/-- The reading of IN-membership asserted by the specification for string
containers: the (string) spec value must equal one of the SINGLE CHARACTERS
of the container string (written from the spec's words, to be compared
against the source semantics `pyIn`). -/
def specCharMembership (t : String) (container : String) : Bool :=
  container.toList.any (fun c => t = String.mk [c])

/-- The condition segment of `text` is exactly the part of the lowered text
before the FIRST occurrence of `sep`, with something after it. -/
def condSegmentSplitsAt (text : String) (sep : String) : Prop :=
  ∃ suffix : List Char,
    lowerS text = condSegment text ++ sep.toList ++ suffix ∧
    ∀ p q : List Char,
      lowerS text = p ++ sep.toList ++ q → (condSegment text).length ≤ p.length

/-- A rule whose condition tree is the vacuously true empty AND group (used
to instantiate the engine claims on concrete rule sets). -/
def trivialRule (i : String) (p : Int) (acts : List Action) : Rule :=
  { id := i, name := i, description := "", category := "general",
    conditions := .group "and" [], actions := acts, priority := p,
    metadata := [] }

/-- A schema whose single condition carries the empty string as its unit —
expressible in the data model (`unit` is just an optional string), but
`to_dict` drops the falsy unit. -/
def schemaEmptyUnit : RuleSchema :=
  { version := "1.0"
    rules := [{ id := "r1", name := "n", description := "d", category := "c",
                conditions := .leaf { field := "f", operator := "equals",
                                      value := .int 1, unit := some "" },
                actions := [{ action_type := "set_value", target := "t",
                              value := .int 2, parameters := [] }],
                priority := 0, metadata := [] }]
    metadata := [] }

/-- `schemaEmptyUnit` with the unit erased — what the round trip actually
reproduces. -/
def schemaNoUnit : RuleSchema :=
  { version := "1.0"
    rules := [{ id := "r1", name := "n", description := "d", category := "c",
                conditions := .leaf { field := "f", operator := "equals",
                                      value := .int 1, unit := Option.none },
                actions := [{ action_type := "set_value", target := "t",
                              value := .int 2, parameters := [] }],
                priority := 0, metadata := [] }]
    metadata := [] }

/-- A schema exercising nesting, units, parameters, priority and metadata,
used to witness the round-trip theorem. -/
def roundtripSampleSchema : RuleSchema :=
  { version := "2.1"
    rules := [{ id := "r1", name := "nm", description := "ds", category := "ct",
                conditions := .group "and"
                  [.leaf { field := "building_area", operator := "greater_than",
                           value := .int 10000, unit := some "sqft" },
                   .group "or"
                     [.leaf { field := "building_type", operator := "in",
                              value := .list [.str "office", .str "retail"],
                              unit := Option.none }]],
                actions := [{ action_type := "set_value",
                              target := "lighting_power_density",
                              value := .float (3 / 2),
                              parameters := [("k", .int 5)] }],
                priority := 7, metadata := [("src", .str "test")] }]
    metadata := [("origin", .str "sample")] }

theorem setKey_setKey (k : String) (v w : Value) :
    ∀ d : List (String × Value), setKey k v (setKey k w d) = setKey k v d := by
  intro d
  induction d with
  | nil => simp [setKey]
  | cons kv rest ih =>
    by_cases h : kv.1 = k
    · obtain ⟨k2, u⟩ := kv
      simp_all [setKey]
    · obtain ⟨k2, u⟩ := kv
      simp_all [setKey]

theorem lookupV_setKey (k k2 : String) (v : Value) :
    ∀ d : List (String × Value),
      lookupV k (setKey k2 v d) = if k2 = k then some v else lookupV k d := by
  intro d
  induction d with
  | nil => simp [setKey, lookupV]
  | cons kv rest ih =>
    obtain ⟨k3, u⟩ := kv
    by_cases h3 : k3 = k2
    · subst h3
      by_cases hk : k3 = k <;> simp [setKey, lookupV, hk]
    · by_cases hk : k3 = k
      · subst hk
        have h2k : ¬ (k2 = k3) := fun h => h3 h.symm
        simp [setKey, lookupV, h3, h2k]
      · simp [setKey, lookupV, h3, hk, ih]

theorem applyAction_eq_setKey (props : List (String × Value)) (a : Action) :
    applyAction props a = setKey a.target (storedValue a) props := by
  unfold applyAction storedValue
  by_cases h1 : a.action_type = "set_value"
  · simp [h1]
  by_cases h2 : a.action_type = "apply_method"
  · simp [h1, h2]
  by_cases h3 : a.action_type = "reference_table"
  · simp [h1, h2, h3]
  by_cases h4 : a.action_type = "evaluate"
  · simp [h1, h2, h3, h4]
  simp only [h1, h2, h3, h4, if_false]
  by_cases h5 : (lookupV a.target props).isNone
  · simp [h5, setKey_setKey]
  · simp [h5]

theorem applyActions_eq_writes (actions : List Action) :
    ∀ props, applyActions actions props
      = applyWrites (actions.map (fun a => (a.target, storedValue a))) props := by
  induction actions with
  | nil => intro props; rfl
  | cons a rest ih =>
    intro props
    simp only [applyActions, List.foldl_cons, List.map_cons, applyWrites]
    rw [applyAction_eq_setKey]
    exact ih (setKey a.target (storedValue a) props)

theorem applyWrites_append (ws1 ws2 : List (String × Value)) (props : List (String × Value)) :
    applyWrites (ws1 ++ ws2) props = applyWrites ws2 (applyWrites ws1 props) := by
  simp [applyWrites, List.foldl_append]

theorem lookupV_applyWrites (k : String) :
    ∀ (ws : List (String × Value)) (props : List (String × Value)),
      lookupV k (applyWrites ws props)
        = match lastVal k ws with
          | some v => some v
          | Option.none => lookupV k props := by
  intro ws
  induction ws with
  | nil => intro props; simp [applyWrites, lastVal]
  | cons kv rest ih =>
    intro props
    have step : applyWrites (kv :: rest) props
        = applyWrites rest (setKey kv.1 kv.2 props) := rfl
    rw [step, ih]
    cases hrest : lastVal k rest with
    | some v => simp [lastVal, hrest]
    | none =>
      simp only [lastVal, hrest]
      rw [lookupV_setKey]
      by_cases hk : kv.1 = k <;> simp [hk]

theorem foldl_evalStep_props (spec : List (String × Value)) :
    ∀ (rs : List Rule) (doc : BaselineDoc),
      (rs.foldl (evalStep spec) doc).baseline_properties
        = applyWrites (writesOf rs spec) doc.baseline_properties := by
  intro rs
  induction rs with
  | nil => intro doc; simp [writesOf, applyWrites]
  | cons r rest ih =>
    intro doc
    by_cases hm : evalRule r spec
    · have hw : writesOf (r :: rest) spec = ruleWrites r ++ writesOf rest spec := by
        simp [writesOf, hm]
      simp only [List.foldl_cons]
      rw [ih, hw, applyWrites_append]
      have hstep : (evalStep spec doc r).baseline_properties
          = applyWrites (ruleWrites r) doc.baseline_properties := by
        simp [evalStep, hm, applyActions_eq_writes, ruleWrites]
      rw [hstep]
    · have hw : writesOf (r :: rest) spec = writesOf rest spec := by
        simp [writesOf, hm]
      simp only [List.foldl_cons]
      rw [ih, hw]
      have hstep : (evalStep spec doc r).baseline_properties
          = doc.baseline_properties := by
        simp [evalStep, hm]
      rw [hstep]

theorem foldl_evalStep_log (spec : List (String × Value)) :
    ∀ (rs : List Rule) (doc : BaselineDoc),
      (rs.foldl (evalStep spec) doc).evaluation_log
        = doc.evaluation_log ++ rs.map (logFor spec) := by
  intro rs
  induction rs with
  | nil => intro doc; simp
  | cons r rest ih =>
    intro doc
    simp only [List.foldl_cons, List.map_cons]
    rw [ih]
    by_cases hm : evalRule r spec <;> simp [evalStep, hm, logFor]

/-! ### Lemmas about the stable descending sort -/

theorem insertRuleDesc_perm (r : Rule) :
    ∀ l : List Rule, (insertRuleDesc r l).Perm (r :: l) := by
  intro l
  induction l with
  | nil => simp [insertRuleDesc]
  | cons x xs ih =>
    by_cases h : r.priority < x.priority
    · simp only [insertRuleDesc, if_pos h]
      exact (List.Perm.cons x ih).trans (List.Perm.swap r x xs)
    · simp [insertRuleDesc, h]

theorem sortRulesDesc_perm (rules : List Rule) :
    (sortRulesDesc rules).Perm rules := by
  induction rules with
  | nil => simp [sortRulesDesc]
  | cons r rest ih =>
    have : sortRulesDesc (r :: rest) = insertRuleDesc r (sortRulesDesc rest) := rfl
    rw [this]
    exact (insertRuleDesc_perm r _).trans (.cons r ih)

theorem insertRuleDesc_pairwise (r : Rule) :
    ∀ l : List Rule,
      l.Pairwise (fun a b => b.priority ≤ a.priority) →
      (insertRuleDesc r l).Pairwise (fun a b => b.priority ≤ a.priority) := by
  intro l
  induction l with
  | nil => intro _; simp [insertRuleDesc]
  | cons x xs ih =>
    intro hp
    rw [List.pairwise_cons] at hp
    obtain ⟨hx, hxs⟩ := hp
    by_cases h : r.priority < x.priority
    · simp only [insertRuleDesc, if_pos h]
      rw [List.pairwise_cons]
      refine ⟨?_, ih hxs⟩
      intro b hb
      have hb2 := (insertRuleDesc_perm r xs).mem_iff.mp hb
      rcases List.mem_cons.mp hb2 with hbr | hbx
      · subst hbr; omega
      · exact hx b hbx
    · simp only [insertRuleDesc, if_neg h]
      rw [List.pairwise_cons]
      refine ⟨?_, List.pairwise_cons.mpr ⟨hx, hxs⟩⟩
      intro b hb
      rcases List.mem_cons.mp hb with hbr | hbx
      · subst hbr; omega
      · have := hx b hbx; omega

theorem sortRulesDesc_pairwise (rules : List Rule) :
    (sortRulesDesc rules).Pairwise (fun a b => b.priority ≤ a.priority) := by
  induction rules with
  | nil => simp [sortRulesDesc]
  | cons r rest ih => exact insertRuleDesc_pairwise r _ ih

theorem filter_insertRuleDesc (r : Rule) (p : Int) :
    ∀ l : List Rule,
      (insertRuleDesc r l).filter (fun x => x.priority = p)
        = if r.priority = p then r :: l.filter (fun x => x.priority = p)
          else l.filter (fun x => x.priority = p) := by
  intro l
  induction l with
  | nil => by_cases h : r.priority = p <;> simp [insertRuleDesc, h]
  | cons x xs ih =>
    by_cases h : r.priority < x.priority
    · simp only [insertRuleDesc, if_pos h]
      by_cases hr : r.priority = p
      · have hx : ¬ (x.priority = p) := by omega
        simp [List.filter_cons, hx, ih, hr]
      · by_cases hx : x.priority = p <;> simp [List.filter_cons, hx, ih, hr]
    · simp only [insertRuleDesc, if_neg h]
      by_cases hr : r.priority = p <;> simp [List.filter_cons, hr]

theorem sortRulesDesc_filter_stable (p : Int) (rules : List Rule) :
    (sortRulesDesc rules).filter (fun x => x.priority = p)
      = rules.filter (fun x => x.priority = p) := by
  induction rules with
  | nil => rfl
  | cons r rest ih =>
    have : sortRulesDesc (r :: rest) = insertRuleDesc r (sortRulesDesc rest) := rfl
    rw [this, filter_insertRuleDesc]
    by_cases hr : r.priority = p <;> simp [List.filter_cons, hr, ih]

/-! ### Lemmas about first-occurrence splitting (for the separator claims) -/

theorem splitFirst_eq_append (sep : List Char) :
    ∀ {s a b : List Char}, splitFirst sep s = some (a, b) → s = a ++ sep ++ b := by
  intro s
  induction s with
  | nil =>
    intro a b h
    by_cases he : sep.isEmpty
    · have hsep : sep = [] := List.isEmpty_iff.mp he
      simp [splitFirst, he] at h
      obtain ⟨ha, hb⟩ := h
      subst ha
      subst hb
      simp [hsep]
    · simp [splitFirst, he] at h
  | cons c rest ih =>
    intro a b h
    by_cases hp : sep.isPrefixOf (c :: rest)
    · simp only [splitFirst, if_pos hp] at h
      obtain ⟨t, ht⟩ := List.isPrefixOf_iff_prefix.mp hp
      obtain ⟨ha, hb⟩ := Prod.mk.injEq .. ▸ (Option.some.injEq .. ▸ h)
      subst ha
      rw [← ht] at hb ⊢
      simp only [List.drop_left] at hb
      simp [← hb]
    · simp only [splitFirst, if_neg hp] at h
      cases hsr : splitFirst sep rest with
      | none => rw [hsr] at h; exact absurd h (by simp)
      | some pr =>
        obtain ⟨pre, post⟩ := pr
        rw [hsr] at h
        simp only [Option.some.injEq, Prod.mk.injEq] at h
        obtain ⟨ha, hb⟩ := h
        subst hb
        rw [← ha]
        simpa using congrArg (c :: ·) (ih hsr)

theorem splitFirst_minimal (sep : List Char) :
    ∀ {s a b : List Char}, splitFirst sep s = some (a, b) →
      ∀ p q : List Char, s = p ++ sep ++ q → a.length ≤ p.length := by
  intro s
  induction s with
  | nil =>
    intro a b h p q _
    by_cases he : sep.isEmpty
    · simp [splitFirst, he] at h
      obtain ⟨ha, _⟩ := h
      subst ha
      simp
    · simp [splitFirst, he] at h
  | cons c rest ih =>
    intro a b h p q hpq
    by_cases hp : sep.isPrefixOf (c :: rest)
    · simp only [splitFirst, if_pos hp] at h
      obtain ⟨ha, _⟩ := Prod.mk.injEq .. ▸ (Option.some.injEq .. ▸ h)
      subst ha
      simp
    · simp only [splitFirst, if_neg hp] at h
      cases hsr : splitFirst sep rest with
      | none => rw [hsr] at h; exact absurd h (by simp)
      | some pr =>
        obtain ⟨pre, post⟩ := pr
        rw [hsr] at h
        simp only [Option.some.injEq, Prod.mk.injEq] at h
        obtain ⟨ha, _⟩ := h
        cases p with
        | nil =>
          exfalso
          apply hp
          apply List.isPrefixOf_iff_prefix.mpr
          simp at hpq
          exact ⟨q, hpq.symm⟩
        | cons c2 p2 =>
          simp only [List.cons_append, List.cons.injEq] at hpq
          rw [← ha]
          simp only [List.length_cons]
          exact Nat.succ_le_succ (ih hsr p2 q hpq.2)

theorem containsSub_eq_isSome (sep : List Char) :
    ∀ s : List Char, containsSub sep s = (splitFirst sep s).isSome := by
  intro s
  induction s with
  | nil =>
    by_cases he : sep.isEmpty <;> simp [containsSub, splitFirst, he]
  | cons c rest ih =>
    by_cases hp : sep.isPrefixOf (c :: rest)
    · simp [containsSub, splitFirst, hp]
    · simp only [containsSub, splitFirst, hp, if_neg, Bool.false_or]
      rw [ih]
      cases splitFirst sep rest with
      | none => simp
      | some pr => simp

/-! ### Round-trip lemmas for the serialization -/

theorem condFromDict_condToDict (c : Condition) (hop : compOpValid c.operator = true)
    (hu : unitTruthy c.unit = c.unit.isSome) :
    treeFromDict (condToDict c) = some (.leaf c) := by
  obtain ⟨f, op, v, u⟩ := c
  rw [treeFromDict.eq_def]
  cases u with
  | none =>
    show Option.map CondTree.leaf
        (if compOpValid op = true then
          some { field := f, operator := op, value := v, unit := Option.none }
        else Option.none)
      = some (.leaf { field := f, operator := op, value := v, unit := Option.none })
    rw [if_pos hop]
    rfl
  | some u =>
    have hne : ¬(u = "") := by
      simp only [unitTruthy, Option.isSome] at hu
      intro h
      rw [h] at hu
      simp at hu
    simp only [condToDict]
    rw [if_neg hne]
    show Option.map CondTree.leaf
        (if compOpValid op = true then
          some { field := f, operator := op, value := v, unit := some u }
        else Option.none)
      = some (.leaf { field := f, operator := op, value := v, unit := some u })
    rw [if_pos hop]
    rfl

mutual

theorem tree_rt : ∀ (t : CondTree), treeWF t = true →
    treeFromDict (treeToDict t) = some t
  | .leaf c, h => by
    have h2 := h
    simp only [treeWF, Bool.and_eq_true, beq_iff_eq] at h2
    exact condFromDict_condToDict c h2.1 h2.2
  | .group op cs, h => by
    have h2 := h
    simp only [treeWF, Bool.and_eq_true] at h2
    rw [treeFromDict.eq_def]
    show (if logicalOpValid op = true then
        Option.map (CondTree.group op) (treeListFromDict (treeListToDict cs))
      else Option.none) = some (.group op cs)
    rw [if_pos h2.1, treeList_rt cs h2.2]
    rfl
termination_by t _ => sizeOf t

theorem treeList_rt : ∀ (l : List CondTree), treeListWF l = true →
    treeListFromDict (treeListToDict l) = some l
  | [], _ => by
    rw [treeListFromDict.eq_def]
    rfl
  | t :: ts, h => by
    have h2 := h
    simp only [treeListWF, Bool.and_eq_true] at h2
    rw [treeListFromDict.eq_def]
    dsimp only [treeListToDict]
    rw [tree_rt t h2.1, treeList_rt ts h2.2]
termination_by l _ => sizeOf l

end

theorem action_rt (a : Action) : actionFromDict (actionToDict a) = some a := by
  obtain ⟨at2, tg, v, ps⟩ := a
  cases ps with
  | nil => rfl
  | cons p rest => rfl

theorem mapM_action_rt (acts : List Action) :
    mapMOpt actionFromDict (acts.map actionToDict) = some acts := by
  induction acts with
  | nil => rfl
  | cons a rest ih => simp [mapMOpt, action_rt, ih]

theorem rule_rt (r : Rule) (h : ruleWF r = true) :
    ruleFromDict (ruleToDict r) = some r := by
  obtain ⟨i, n, d, c, conds, acts, pri, md⟩ := r
  have htree : treeFromDict (treeToDict conds) = some conds := tree_rt conds h
  have hacts := mapM_action_rt acts
  cases md with
  | nil =>
    unfold ruleFromDict ruleToDict
    simp [lookupV, htree, hacts]
  | cons kv mdrest =>
    unfold ruleFromDict ruleToDict
    simp [lookupV, htree, hacts]

theorem mapM_rule_rt (rules : List Rule) (h : rules.all ruleWF = true) :
    mapMOpt ruleFromDict (rules.map ruleToDict) = some rules := by
  induction rules with
  | nil => rfl
  | cons r rest ih =>
    simp only [List.all_cons, Bool.and_eq_true] at h
    simp [mapMOpt, rule_rt r h.1, ih h.2]

theorem schema_rt (s : RuleSchema) (h : schemaWF s = true) :
    schemaFromDict (schemaToDict s) = some s := by
  obtain ⟨ver, rules, md⟩ := s
  have hr := mapM_rule_rt rules h
  cases md with
  | nil =>
    unfold schemaFromDict schemaToDict
    simp [lookupV, hr]
  | cons kv mdrest =>
    unfold schemaFromDict schemaToDict
    simp [lookupV, hr]

theorem actionFromSegment_type_ne (seg : List Char) :
    (actionFromSegment seg).action_type ≠ "evaluate" := by
  unfold actionFromSegment
  cases hnum : numberSearch seg with
  | some ds => simp
  | none =>
    dsimp only
    by_cases hm : (containsSub "method".toList seg
        || containsSub "procedure".toList seg) = true
    · rw [if_pos hm]; simp
    · rw [if_neg hm]
      by_cases ht : containsSub "table".toList seg = true
      · rw [if_pos ht]; simp
      · rw [if_neg ht]; simp

/-! ### Claim C1 -/

/-- C1, counterexample: on the claim's own example text,
"If building area is greater than 10000 sqft then set value to 1.5",
`parse_rule_text` produces operator EQUALS — the first table row
(`\bequals?\b|\bis\b|\b=\b`) matches the word "is" before the
GREATER_THAN row is ever tried — so the claimed result with operator
GREATER_THAN is not what the code returns (field, value and unit do come
out as claimed). -/
theorem c1_counterexample :
    extractConditions "If building area is greater than 10000 sqft then set value to 1.5"
      = .leaf { field := "building_area", operator := "equals",
                value := .int 10000, unit := some "sqft" }
    ∧ extractConditions "If building area is greater than 10000 sqft then set value to 1.5"
      ≠ .leaf { field := "building_area", operator := "greater_than",
                value := .int 10000, unit := some "sqft" } := by
  constructor
  · decide
  · decide

/-- C1 (amended): operator detection is first regex match over the operator
table in its fixed insertion order, in which the EQUALS row (matching
"equal(s)", "is" or "=") is tested FIRST — so longer phrasings like
"greater than" lose whenever an earlier row matches (e.g. an "is" in the
text) — with EQUALS also the default when no row matches; consequently the
example text parses to a single Condition with field "building_area",
operator EQUALS (not GREATER_THAN), integer value 10000 and unit "sqft". -/
theorem c1_operator_table_first_match :
    (∀ s : List Char, opRowEquals s = true → findOperator s = "equals")
    ∧ (∀ s : List Char, opRowEquals s = false → opRowNotEquals s = true →
        findOperator s = "not_equals")
    ∧ (∀ s : List Char, opRowEquals s = false → opRowNotEquals s = false →
        opRowGte s = true → findOperator s = "greater_than_or_equal")
    ∧ (∀ s : List Char, opRowEquals s = false → opRowNotEquals s = false →
        opRowGte s = false → opRowLte s = true →
        findOperator s = "less_than_or_equal")
    ∧ (∀ s : List Char, opRowEquals s = false → opRowNotEquals s = false →
        opRowGte s = false → opRowLte s = false → opRowGt s = true →
        findOperator s = "greater_than")
    ∧ (∀ s : List Char, opRowEquals s = false → opRowNotEquals s = false →
        opRowGte s = false → opRowLte s = false → opRowGt s = false →
        opRowLt s = true → findOperator s = "less_than")
    ∧ (∀ s : List Char, opRowEquals s = false → opRowNotEquals s = false →
        opRowGte s = false → opRowLte s = false → opRowGt s = false →
        opRowLt s = false → findOperator s = "equals")
    ∧ extractConditions "If building area is greater than 10000 sqft then set value to 1.5"
      = .leaf { field := "building_area", operator := "equals",
                value := .int 10000, unit := some "sqft" } := by
  refine ⟨?_, ?_, ?_, ?_, ?_, ?_, ?_, by decide⟩
  all_goals intro s
  · intro h1; simp [findOperator, opRows, List.find?, h1]
  · intro h1 h2; simp [findOperator, opRows, List.find?, h1, h2]
  · intro h1 h2 h3; simp [findOperator, opRows, List.find?, h1, h2, h3]
  · intro h1 h2 h3 h4; simp [findOperator, opRows, List.find?, h1, h2, h3, h4]
  · intro h1 h2 h3 h4 h5
    simp [findOperator, opRows, List.find?, h1, h2, h3, h4, h5]
  · intro h1 h2 h3 h4 h5 h6
    simp [findOperator, opRows, List.find?, h1, h2, h3, h4, h5, h6]
  · intro h1 h2 h3 h4 h5 h6
    simp [findOperator, opRows, List.find?, h1, h2, h3, h4, h5, h6]

/-- C1 witness: the amended theorem applied at concrete inputs — an "is"
text hits the EQUALS row, an "exceeds" text (with the five earlier rows
failing) yields GREATER_THAN, and a text matching no row defaults to
EQUALS. -/
theorem c1_witness :
    findOperator (lowerS "building area is big") = "equals"
    ∧ findOperator (lowerS "area exceeds 10") = "greater_than"
    ∧ findOperator (lowerS "xyz") = "equals" :=
  ⟨c1_operator_table_first_match.1 _ (by decide),
   c1_operator_table_first_match.2.2.2.2.1 _ (by decide) (by decide)
     (by decide) (by decide) (by decide),
   c1_operator_table_first_match.2.2.2.2.2.2.1 _ (by decide) (by decide)
     (by decide) (by decide) (by decide) (by decide)⟩

/-! ### Claim C4 -/

/-- C4, counterexample: in "a use b then c" the separator " use " occurs at
index 1, earlier than " then " at index 7, yet the condition segment is
"a use b" — the split happens at " then " (fixed preference order), not at
the earliest-occurring separator, which would give segment "a". -/
theorem c4_counterexample :
    firstOccIdx " use ".toList (lowerS "a use b then c") = some 1
    ∧ firstOccIdx " then ".toList (lowerS "a use b then c") = some 7
    ∧ condSegment "a use b then c" = "a use b".toList
    ∧ condSegment "a use b then c" ≠ "a".toList := by
  refine ⟨by decide, by decide, by decide, by decide⟩

/-- C4 (amended): the split point is chosen by a FIXED PREFERENCE among the
separator tokens — " then " first, then " set ", " apply ", " use " — the
first token of that list that occurs anywhere in the lowered text wins, and
the condition segment is the text before that token's first occurrence
(when no token occurs, the whole text is the condition segment); the
earliest-occurring separator in the text is NOT what decides the split. -/
theorem c4_separator_fixed_preference :
    (∀ text : String,
      (∀ sep ∈ condSeparators, containsSub sep.toList (lowerS text) = false) →
      condSegment text = text.toList)
    ∧ (∀ text : String,
        containsSub " then ".toList (lowerS text) = true →
        condSegmentSplitsAt text " then ")
    ∧ (∀ text : String,
        containsSub " then ".toList (lowerS text) = false →
        containsSub " set ".toList (lowerS text) = true →
        condSegmentSplitsAt text " set ")
    ∧ (∀ text : String,
        containsSub " then ".toList (lowerS text) = false →
        containsSub " set ".toList (lowerS text) = false →
        containsSub " apply ".toList (lowerS text) = true →
        condSegmentSplitsAt text " apply ")
    ∧ (∀ text : String,
        containsSub " then ".toList (lowerS text) = false →
        containsSub " set ".toList (lowerS text) = false →
        containsSub " apply ".toList (lowerS text) = false →
        containsSub " use ".toList (lowerS text) = true →
        condSegmentSplitsAt text " use ") := by
  have key : ∀ (text : String) (sep : String),
      condSeparators.find? (fun sp => containsSub sp.toList (lowerS text))
        = some sep →
      containsSub sep.toList (lowerS text) = true →
      condSegmentSplitsAt text sep := by
    intro text sep hfind hsub
    rw [containsSub_eq_isSome] at hsub
    obtain ⟨⟨a, b⟩, hsplit⟩ := Option.isSome_iff_exists.mp hsub
    have hseg : condSegment text = a := by
      simp only [condSegment, hfind, hsplit]
    refine ⟨b, ?_, ?_⟩
    · rw [hseg]; exact splitFirst_eq_append _ hsplit
    · intro p q hpq
      rw [hseg]
      exact splitFirst_minimal _ hsplit p q hpq
  refine ⟨?_, ?_, ?_, ?_, ?_⟩
  · intro text hnone
    have hfn : condSeparators.find? (fun sp => containsSub sp.toList (lowerS text))
        = Option.none := by
      apply List.find?_eq_none.mpr
      intro sep hsep
      simp only [Bool.not_eq_true]
      exact hnone sep hsep
    simp only [condSegment, hfn]
  · intro text h1
    apply key text " then " _ h1
    simp only [condSeparators, List.find?, h1]
  · intro text h1 h2
    apply key text " set " _ h2
    simp only [condSeparators, List.find?, h1, h2]
  · intro text h1 h2 h3
    apply key text " apply " _ h3
    simp only [condSeparators, List.find?, h1, h2, h3]
  · intro text h1 h2 h3 h4
    apply key text " use " _ h4
    simp only [condSeparators, List.find?, h1, h2, h3, h4]

/-- C4 witness: the amended theorem applied at concrete inputs — a text
without separators keeps the whole text as condition segment, and
"a use b then c" splits at " then " with the minimal prefix "a use b". -/
theorem c4_witness :
    condSegment "no separators here" = "no separators here".toList
    ∧ condSegmentSplitsAt "a use b then c" " then " :=
  ⟨c4_separator_fixed_preference.1 "no separators here" (by decide),
   c4_separator_fixed_preference.2.1 "a use b then c" (by decide)⟩

/-! ### Claim C5 -/

/-- C5, counterexample: in "If building area is 5 then set x and y" the
condition segment ("if building area is 5") contains neither whole-word
connective, yet the parse result is a ConditionGroup — the "and" in the
ACTION segment triggered the group. -/
theorem c5_counterexample :
    containsWordB "and" (condSegment "If building area is 5 then set x and y") = false
    ∧ containsWordB "or" (condSegment "If building area is 5 then set x and y") = false
    ∧ isGroup (extractConditions "If building area is 5 then set x and y") = true := by
  refine ⟨by decide, by decide, by decide⟩

/-- C5 (amended): whether `parse_rule_text` produces a ConditionGroup or a
single Condition is decided by whole-word "and"/"or" occurring anywhere in
the FULL lowered text — including the action segment — not just in the
condition segment. -/
theorem c5_connectives_full_text (text : String) :
    isGroup (extractConditions text)
      = (containsWordB "and" (lowerS text) || containsWordB "or" (lowerS text)) := by
  unfold extractConditions
  by_cases hb : containsWordB "and" (lowerS text) || containsWordB "or" (lowerS text)
  · simp only [hb, if_pos]
    unfold parseConditionGroup
    simp [isGroup]
  · simp only [hb]
    simp only [Bool.or_eq_true] at hb
    push_neg at hb
    simp only [Bool.not_eq_true] at hb
    simp [hb.1, hb.2, isGroup]

/-! ### Claim C6 -/

/-- C6, counterexample: "If building area is 5 apply efficiency 3" contains
the separator token " apply ", yet `_extract_actions` still produces the
fallback action (action_type "evaluate", target "compliance", value
"check") — only " then " and " set " ever trigger action extraction. -/
theorem c6_counterexample :
    containsSub " apply ".toList (lowerS "If building area is 5 apply efficiency 3") = true
    ∧ extractActions "If building area is 5 apply efficiency 3" = [fallbackAction] := by
  refine ⟨by decide, by decide⟩

/-- C6 (amended): the fallback action is produced exactly when NEITHER
" then " NOR " set " occurs in the lowered text — texts whose only
separator is " apply " or " use " also get the fallback — and when one of
the two does occur, the single extracted action comes from the action
segment via `actionFromSegment` (and is never the fallback's "evaluate"
type). -/
theorem c6_fallback_then_set :
    (∀ text : String,
      containsSub " then ".toList (lowerS text) = false →
      containsSub " set ".toList (lowerS text) = false →
      extractActions text = [fallbackAction])
    ∧ (∀ text : String,
        (containsSub " then ".toList (lowerS text)
          || containsSub " set ".toList (lowerS text)) = true →
        ∃ seg : List Char,
          extractActions text = [actionFromSegment seg]
          ∧ (actionFromSegment seg).action_type ≠ "evaluate") := by
  constructor
  · intro text h1 h2
    unfold extractActions
    simp only [h1, h2]
    simp
  · intro text hor
    unfold extractActions
    simp only [hor]
    simp only [if_true]
    exact ⟨_, rfl, actionFromSegment_type_ne _⟩

/-- C6 witness: the amended theorem applied at concrete inputs — an
" apply "-only text falls back, and a " then " text gets an extracted
non-fallback action. -/
theorem c6_witness :
    extractActions "If building area is 5 apply efficiency 3" = [fallbackAction]
    ∧ ∃ seg : List Char,
        extractActions "if x then set efficiency to 3" = [actionFromSegment seg]
        ∧ (actionFromSegment seg).action_type ≠ "evaluate" :=
  ⟨c6_fallback_then_set.1 _ (by decide) (by decide),
   c6_fallback_then_set.2 _ (by decide)⟩

/-! ### Claim C7 -/

/-- C7, counterexample: the condition `{field "f", IN, value "abcd"}`
against spec `{"f": "bc"}` evaluates TRUE — Python's `in` on strings is a
SUBSTRING test — while the claimed character-wise membership of "bc" among
the single characters of "abcd" is false. -/
theorem c7_counterexample :
    evalCondition { field := "f", operator := "in", value := .str "abcd",
                    unit := Option.none } [("f", .str "bc")] = true
    ∧ specCharMembership "bc" "abcd" = false := by
  refine ⟨by decide, by decide⟩

/-- C7 (amended): for IN conditions with a string container the evaluation
is SUBSTRING occurrence of the (string) spec value in the container — a
non-string spec value yields false via the caught TypeError — and for list
containers it is Python-equality membership of the spec value among the
elements; NOT_IN is the negation in the string/list cases (always false on
a caught TypeError). -/
theorem c7_in_substring_semantics :
    (∀ (c : Condition) (spec : List (String × Value)) (t s : String),
      c.operator = "in" → c.value = .str s →
      lookupV c.field spec = some (.str t) →
      evalCondition c spec = containsSub t.toList s.toList)
    ∧ (∀ (c : Condition) (spec : List (String × Value)) (v : Value) (s : String),
        c.operator = "in" → c.value = .str s →
        lookupV c.field spec = some v → (∀ t, v ≠ .str t) →
        evalCondition c spec = false)
    ∧ (∀ (c : Condition) (spec : List (String × Value)) (v : Value) (l : List Value),
        c.operator = "in" → c.value = .list l →
        lookupV c.field spec = some v → v ≠ .none →
        evalCondition c spec = l.any (fun e => pyEq v e))
    ∧ (∀ (c : Condition) (spec : List (String × Value)) (t s : String),
        c.operator = "not_in" → c.value = .str s →
        lookupV c.field spec = some (.str t) →
        evalCondition c spec = !containsSub t.toList s.toList)
    ∧ (∀ (c : Condition) (spec : List (String × Value)) (v : Value) (l : List Value),
        c.operator = "not_in" → c.value = .list l →
        lookupV c.field spec = some v → v ≠ .none →
        evalCondition c spec = !l.any (fun e => pyEq v e)) := by
  refine ⟨?_, ?_, ?_, ?_, ?_⟩
  · intro c spec t s hop hval hlook
    unfold evalCondition
    rw [hlook, hop, hval]
    simp [pyIn]
  · intro c spec v s hop hval hlook hnotstr
    unfold evalCondition
    rw [hlook, hop, hval]
    cases v with
    | none => simp
    | str t => exact absurd rfl (hnotstr t)
    | int n => simp [pyIn]
    | float q => simp [pyIn]
    | list l => simp [pyIn]
    | dict d => simp [pyIn]
  · intro c spec v l hop hval hlook hvn
    unfold evalCondition
    rw [hlook, hop, hval]
    cases v with
    | none => exact absurd rfl hvn
    | _ => simp [pyIn]
  · intro c spec t s hop hval hlook
    unfold evalCondition
    rw [hlook, hop, hval]
    simp [pyIn]
  · intro c spec v l hop hval hlook hvn
    unfold evalCondition
    rw [hlook, hop, hval]
    cases v with
    | none => exact absurd rfl hvn
    | _ => simp [pyIn]

/-- C7 witness: the amended theorem applied at concrete inputs — substring
truth for "bc" in "abcd", TypeError-false for an int against a string
container, and list membership for 2 in [1, 2]. -/
theorem c7_witness :
    evalCondition { field := "f", operator := "in", value := .str "abcd",
                    unit := Option.none } [("f", .str "bc")] = containsSub "bc".toList "abcd".toList
    ∧ evalCondition { field := "f", operator := "in", value := .str "abcd",
                      unit := Option.none } [("f", .int 7)] = false
    ∧ evalCondition { field := "f", operator := "in", value := .list [.int 1, .int 2],
                      unit := Option.none } [("f", .int 2)]
        = List.any [.int 1, .int 2] (fun e => pyEq (.int 2) e) :=
  ⟨c7_in_substring_semantics.1 _ [("f", .str "bc")] "bc" "abcd" rfl rfl (by decide),
   c7_in_substring_semantics.2.1 _ [("f", .int 7)] (.int 7) "abcd" rfl rfl
     (by decide) (by intro t h; cases h),
   c7_in_substring_semantics.2.2.1 _ [("f", .int 2)] (.int 2) [.int 1, .int 2]
     rfl rfl (by decide) (by intro h; cases h)⟩

/-! ### Claim C10 -/

/-- C10: a field that is present in the building spec but mapped to `None`
is rejected up front by `_evaluate_condition` (the `field_value is None`
guard), so NO condition — whatever its operator, including NOT_EQUALS and
NOT_IN — can match on it; it is indistinguishable from an absent field. -/
theorem c10_none_field_never_matches
    (c : Condition) (spec : List (String × Value))
    (h : lookupV c.field spec = some .none) :
    evalCondition c spec = false := by
  unfold evalCondition
  rw [h]

/-- C10 witness: a NOT_EQUALS condition that would otherwise hold (1 ≠ 2)
still evaluates false on a None-valued field. -/
theorem c10_witness :
    lookupV "f" [("f", Value.none)] = some Value.none
    ∧ evalCondition { field := "f", operator := "not_equals", value := .int 2,
                      unit := Option.none } [("f", Value.none)] = false :=
  ⟨by decide,
   c10_none_field_never_matches
     { field := "f", operator := "not_equals", value := .int 2,
       unit := Option.none } [("f", Value.none)] (by decide)⟩

/-! ### Claim C2 -/

/-- C2: last-write-wins on baseline properties.  First conjunct: for every
rule set, spec and target, the final `baseline_properties` value of a
target is exactly the LAST write to it in the flattened write sequence of
the matched rules, taken in the priority-descending processing order.
Second conjunct: two matched rules with distinct priorities both setting
the same target end with the LOWER-priority rule's value, whichever order
the schema lists them in — the higher priority does not win. -/
theorem c2_last_write_wins :
    (∀ (rules : List Rule) (spec : List (String × Value)) (target : String),
      lookupV target (evaluate rules spec).baseline_properties
        = lastVal target (writesOf (sortRulesDesc rules) spec))
    ∧ (∀ (rA rB : Rule) (spec : List (String × Value)) (t : String) (vA vB : Value),
        rB.priority < rA.priority →
        evalRule rA spec = true → evalRule rB spec = true →
        rA.actions = [{ action_type := "set_value", target := t, value := vA,
                        parameters := [] }] →
        rB.actions = [{ action_type := "set_value", target := t, value := vB,
                        parameters := [] }] →
        lookupV t (evaluate [rA, rB] spec).baseline_properties = some vB
        ∧ lookupV t (evaluate [rB, rA] spec).baseline_properties = some vB) := by
  have general : ∀ (rules : List Rule) (spec : List (String × Value)) (target : String),
      lookupV target (evaluate rules spec).baseline_properties
        = lastVal target (writesOf (sortRulesDesc rules) spec) := by
    intro rules spec target
    unfold evaluate
    rw [foldl_evalStep_props, lookupV_applyWrites]
    cases lastVal target (writesOf (sortRulesDesc rules) spec) with
    | some v => rfl
    | none => rfl
  refine ⟨general, ?_⟩
  intro rA rB spec t vA vB hp hA hB haA haB
  have hnlt : ¬(rA.priority < rB.priority) := by omega
  have hsort1 : sortRulesDesc [rA, rB] = [rA, rB] := by
    simp [sortRulesDesc, insertRuleDesc, hnlt]
  have hsort2 : sortRulesDesc [rB, rA] = [rA, rB] := by
    simp [sortRulesDesc, insertRuleDesc, hp]
  have hw : writesOf [rA, rB] spec = [(t, vA), (t, vB)] := by
    simp [writesOf, List.filter, hA, hB, ruleWrites, haA, haB, storedValue]
  constructor
  · rw [general, hsort1, hw]
    simp [lastVal]
  · rw [general, hsort2, hw]
    simp [lastVal]

/-- C2 witness: the theorem's second conjunct applied to concrete rules of
priorities 10 and 1 that both match and both set target "t". -/
theorem c2_witness :
    lookupV "t" (evaluate
        [trivialRule "A" 10 [{ action_type := "set_value", target := "t",
                               value := .int 1, parameters := [] }],
         trivialRule "B" 1 [{ action_type := "set_value", target := "t",
                              value := .int 2, parameters := [] }]]
        []).baseline_properties = some (.int 2) :=
  (c2_last_write_wins.2
    (trivialRule "A" 10 [{ action_type := "set_value", target := "t",
                           value := .int 1, parameters := [] }])
    (trivialRule "B" 1 [{ action_type := "set_value", target := "t",
                          value := .int 2, parameters := [] }])
    [] "t" (.int 1) (.int 2) (by decide) (by decide) (by decide) rfl rfl).1

/-! ### Claim C3 -/

/-- C3: single-condition evaluation degrades, never raises.  Conjuncts:
(1) an absent field yields false; (2) on a present non-None field, EQUALS
and NOT_EQUALS are exactly Python `==`/`!=` on the values; (3)+(4) that
equality never coerces a string to a number (unlike the ordering
operators); (5) the four ordering operators yield false whenever the
`float(...)` coercion of either operand fails; (6) an operator string
outside the enumerated set yields false. -/
theorem c3_condition_eval_degradation :
    (∀ (c : Condition) (spec : List (String × Value)),
      lookupV c.field spec = Option.none → evalCondition c spec = false)
    ∧ (∀ (c : Condition) (spec : List (String × Value)) (v : Value),
        lookupV c.field spec = some v → v ≠ .none →
        (c.operator = "equals" → evalCondition c spec = pyEq v c.value)
        ∧ (c.operator = "not_equals" → evalCondition c spec = !pyEq v c.value))
    ∧ (∀ (s : String) (n : Int), pyEq (.str s) (.int n) = false)
    ∧ (∀ (s : String) (q : ℚ), pyEq (.str s) (.float q) = false)
    ∧ (∀ (c : Condition) (spec : List (String × Value)) (v : Value),
        lookupV c.field spec = some v → v ≠ .none →
        (c.operator = "greater_than" ∨ c.operator = "less_than"
          ∨ c.operator = "greater_than_or_equal"
          ∨ c.operator = "less_than_or_equal") →
        (pyFloat v = Option.none ∨ pyFloat c.value = Option.none) →
        evalCondition c spec = false)
    ∧ (∀ (c : Condition) (spec : List (String × Value)),
        ¬(c.operator ∈ compOpLits) → evalCondition c spec = false) := by
  have hcmp : ∀ (cmp : ℚ → ℚ → Bool) (v w : Value),
      pyFloat v = Option.none ∨ pyFloat w = Option.none →
      floatCmp cmp v w = false := by
    intro cmp v w h
    unfold floatCmp
    cases hv : pyFloat v with
    | none => rfl
    | some a =>
      cases hw : pyFloat w with
      | none => rfl
      | some b =>
        rcases h with h | h
        · rw [hv] at h; cases h
        · rw [hw] at h; cases h
  refine ⟨?_, ?_, ?_, ?_, ?_, ?_⟩
  · intro c spec h
    unfold evalCondition
    rw [h]
  · intro c spec v hlook hv
    constructor
    · intro hop
      unfold evalCondition
      rw [hlook, hop]
      cases v with
      | none => exact absurd rfl hv
      | int n => simp
      | float q => simp
      | str s => simp
      | list l => simp
      | dict d => simp
    · intro hop
      unfold evalCondition
      rw [hlook, hop]
      cases v with
      | none => exact absurd rfl hv
      | int n => simp
      | float q => simp
      | str s => simp
      | list l => simp
      | dict d => simp
  · intro s n
    simp [pyEq]
  · intro s q
    simp [pyEq]
  · intro c spec v hlook hv hopmem hcoerce
    unfold evalCondition
    rw [hlook]
    rcases hopmem with h | h | h | h <;> rw [h] <;>
      cases v <;>
        first
        | exact absurd rfl hv
        | simp [hcmp _ _ _ hcoerce]
  · intro c spec hop
    simp only [compOpLits, List.mem_cons, List.not_mem_nil, or_false, not_or] at hop
    obtain ⟨h1, h2, h3, h4, h5, h6, h7, h8⟩ := hop
    unfold evalCondition
    cases hlook : lookupV c.field spec with
    | none => rfl
    | some v =>
      cases v <;> simp [h1, h2, h3, h4, h5, h6, h7, h8]

/-- C3 witness: the theorem applied at concrete inputs — an absent field,
the string-vs-int equality "10" vs 10, a GREATER_THAN against a non-numeric
spec value, and an unrecognized operator, all yielding false. -/
theorem c3_witness :
    evalCondition { field := "x", operator := "equals", value := .int 1,
                    unit := Option.none } [] = false
    ∧ pyEq (.str "10") (.int 10) = false
    ∧ evalCondition { field := "f", operator := "greater_than",
                      value := .int 10000, unit := Option.none }
        [("f", .str "not-a-number")] = false
    ∧ evalCondition { field := "t", operator := "frobnicate", value := .int 1,
                      unit := Option.none } [("t", .int 1)] = false :=
  ⟨c3_condition_eval_degradation.1 _ [] (by decide),
   c3_condition_eval_degradation.2.2.1 "10" 10,
   c3_condition_eval_degradation.2.2.2.2.1 _ [("f", .str "not-a-number")]
     (.str "not-a-number") (by decide) (by intro h; cases h)
     (Or.inl rfl) (Or.inl (by decide)),
   c3_condition_eval_degradation.2.2.2.2.2 _ [("t", .int 1)] (by decide)⟩

/-! ### Claim C8 -/

/-- C8: priority-descending stable processing order.  Conjuncts: (1) the
evaluation log lists exactly the stably-descending-sorted rules in order;
(2) that order is non-increasing in priority; (3) it is a permutation of
the schema order; (4) equal-priority rules keep their original relative
order (the filter at any fixed priority is unchanged); (5) the concrete
[5, 10, 5] example is processed as [rule@10, rule@5(first), rule@5(second)]. -/
theorem c8_priority_order_stable :
    (∀ (rules : List Rule) (spec : List (String × Value)),
      (evaluate rules spec).evaluation_log = (sortRulesDesc rules).map (logFor spec))
    ∧ (∀ rules : List Rule,
        (sortRulesDesc rules).Pairwise (fun a b => b.priority ≤ a.priority))
    ∧ (∀ rules : List Rule, (sortRulesDesc rules).Perm rules)
    ∧ (∀ (rules : List Rule) (p : Int),
        (sortRulesDesc rules).filter (fun x => x.priority = p)
          = rules.filter (fun x => x.priority = p))
    ∧ ((evaluate [trivialRule "P" 5 [], trivialRule "Q" 10 [], trivialRule "R" 5 []]
          []).evaluation_log.map (fun e => e.rule_id) = ["Q", "P", "R"]) := by
  refine ⟨?_, sortRulesDesc_pairwise, sortRulesDesc_perm, ?_, by decide⟩
  · intro rules spec
    unfold evaluate
    rw [foldl_evalStep_log]
    simp
  · intro rules p
    exact sortRulesDesc_filter_stable p rules

/-! ### Claim C9 -/

/-- C9, counterexample: the schema whose single condition has `unit = ""`
(an ordinary optional-string value of the data model) does NOT round-trip:
`to_dict` omits the falsy unit, so `from_dict` reconstructs the schema with
`unit = None` instead. -/
theorem c9_counterexample :
    schemaFromDict (schemaToDict schemaEmptyUnit) = some schemaNoUnit
    ∧ schemaFromDict (schemaToDict schemaEmptyUnit) ≠ some schemaEmptyUnit := by
  have h1 : schemaToDict schemaEmptyUnit = schemaToDict schemaNoUnit := rfl
  have h2 : schemaFromDict (schemaToDict schemaNoUnit) = some schemaNoUnit :=
    schema_rt _ (by decide)
  constructor
  · rw [h1]
    exact h2
  · rw [h1, h2]
    intro hcontra
    have : schemaNoUnit = schemaEmptyUnit := Option.some.inj hcontra
    exact absurd this (by decide)

/-- C9 (amended): deserializing a serialized `RuleSchema` reproduces every
scalar field, nested condition tree and action list exactly, PROVIDED the
schema is a value of the declared data model (operator literals in the
enumerated sets) whose condition units are never the empty string — the
one value `to_dict`'s truthiness test conflates with an absent unit. -/
theorem c9_roundtrip (s : RuleSchema) (h : schemaWF s = true) :
    schemaFromDict (schemaToDict s) = some s :=
  schema_rt s h

/-- C9 witness: the round trip applied to a schema with nested groups,
units, parameters, priority and metadata. -/
theorem c9_witness :
    schemaWF roundtripSampleSchema = true
    ∧ schemaFromDict (schemaToDict roundtripSampleSchema)
        = some roundtripSampleSchema :=
  ⟨by decide, c9_roundtrip roundtripSampleSchema (by decide)⟩

end BG
